import Mathlib

/-!
Verification development for `recipekeeper2recipemd` (src/main.go).

The Go program converts a Recipe Keeper HTML export into RecipeMD Markdown
files.  This file gives a shallow embedding of its core logic:

* `ParseISODuration` — the ISO-8601 duration parser (src/main.go:331-382).
  The Go code matches the anchored regex
  `^P(?:(\d+)Y)?(?:(\d+)M)?(?:(\d+)D)?T(?:(\d+)H)?(?:(\d+)M)?(?:(\d+(?:.\d+)?)S)?$`
  (note the unescaped `.` in the seconds group: it is a wildcard matching any
  rune except a newline), converts the captured day/hour/minute/second groups
  to numbers, sums them into seconds and builds a `time.Duration`
  (an `int64` count of nanoseconds).  The regex is embedded below as a
  hand-rolled deterministic parser (`isoMatch`); each optional group is
  "longest digit run, then the literal unit letter", which coincides with the
  regex's greedy leftmost-first semantics because every backtracking
  alternative dead-ends: shrinking a `\d+` run leaves a digit where a unit
  letter is required, and skipping a committed unit group can only succeed via
  the seconds wildcard eating the unit letter, which forces a shape on the
  remaining input under which the committed path succeeds as well.
  Numbers are modelled as exact unreduced fractions; Go parses them with
  `strconv.ParseFloat(_, 32)` and re-renders the sum through `FormatFloat`
  before `time.ParseDuration`, which agrees with the exact rational value for
  the short decimal numerals relevant here (float32 rounding only diverges
  beyond seven significant digits, and overflow inputs still yield an error in
  Go versus a large integer here; no claim below depends on that fringe).
  Durations are `Int` nanosecond counts, as Go's `time.Duration` is.

* `ConvertFractions` — the vulgar-fraction substitution (src/main.go:61-91).

* The document model and property extractors (src/main.go:28-194): goquery
  selections are embedded as pre-order descendant lists of a small HTML node
  type, with `Find`, `AttrOr`, `Text`, `Children` and `Is` given their goquery
  meanings (selectors match element nodes only; `Text` concatenates the text
  of all matched nodes with their descendants; `AttrOr` reads the first match).

* `FormatAsRecipeMD` — the Markdown renderer (src/main.go:231-288), including
  a model of Go's `time.Duration.String` formatting.
-/

/-- `[0-9]`, the character class `\d` of Go's regexp (RE2 defaults). -/
def isDigitChar (c : Char) : Bool := '0' ≤ c && c ≤ '9'

/-- Longest digit prefix of a character list, with the remainder. -/
def takeDigits : List Char → List Char × List Char
  | [] => ([], [])
  | c :: cs =>
    if isDigitChar c then
      let p := takeDigits cs
      (c :: p.1, p.2)
    else ([], c :: cs)

/-- One optional regex group `(?:(\d+)L)?` for a unit letter `L`:
capture the longest digit run if it is nonempty and immediately followed by
`L`, otherwise capture nothing and consume nothing. -/
def numGroup (letter : Char) (xs : List Char) : Option (List Char) × List Char :=
  match takeDigits xs with
  | ([], _) => (none, xs)
  | (_ :: _, []) => (none, xs)
  | (d :: ds, c :: rest) => if c = letter then (some (d :: ds), rest) else (none, xs)

/-- The inner alternative `(?:.\d+)?` of the seconds group followed by the
literal `S`: the wildcard consumes one non-newline character `c`, then a
nonempty digit run, then `S`. -/
def secInner (d : List Char) (c : Char) (rest : List Char) : Option (List Char × List Char) :=
  if c ≠ '\n' then
    match takeDigits rest with
    | (e :: es, c2 :: rest2) =>
      if c2 = 'S' then some (d ++ c :: e :: es, rest2) else none
    | _ => none
  else none

/-- The optional seconds group `(?:(\d+(?:.\d+)?)S)?` of the Go regex, with
its unescaped `.`: after the digit run `d1`, the greedy engine first tries to
let `.` consume one arbitrary non-newline character `c` followed by a second
digit run and the literal `S`, and only then falls back to a bare `d1` `S`. -/
def secGroup (xs : List Char) : Option (List Char) × List Char :=
  match takeDigits xs with
  | ([], _) => (none, xs)
  | (_ :: _, []) => (none, xs)
  | (d :: ds, c :: rest) =>
    match secInner (d :: ds) c rest with
    | some r => (some r.1, r.2)
    | none => if c = 'S' then (some (d :: ds), rest) else (none, xs)

/-- The six capture groups of the duration regex (`matches[1..6]` in Go;
`none` stands for Go's empty string of an unmatched group, which `\d+` can
never produce from a match). -/
structure IsoGroups where
  years : Option (List Char)
  months : Option (List Char)
  days : Option (List Char)
  hours : Option (List Char)
  minutes : Option (List Char)
  seconds : Option (List Char)
deriving DecidableEq, Repr

/-- The time part of the regex, after the mandatory `T`:
`(?:(\d+)H)?(?:(\d+)M)?(?:(\d+(?:.\d+)?)S)?$`. -/
def isoTime (gy gmo gd : Option (List Char)) (s5 : List Char) : Option IsoGroups :=
  match numGroup 'H' s5 with
  | (gh, s6) =>
    match numGroup 'M' s6 with
    | (gmi, s7) =>
      match secGroup s7 with
      | (gs, s8) => if s8 = [] then some ⟨gy, gmo, gd, gh, gmi, gs⟩ else none

/-- The part of the regex after the leading `P`:
`(?:(\d+)Y)?(?:(\d+)M)?(?:(\d+)D)?T` followed by the time part. -/
def isoAfterP (s1 : List Char) : Option IsoGroups :=
  match numGroup 'Y' s1 with
  | (gy, s2) =>
    match numGroup 'M' s2 with
    | (gmo, s3) =>
      match numGroup 'D' s3 with
      | (gd, s4) =>
        match s4 with
        | c :: s5 => if c = 'T' then isoTime gy gmo gd s5 else none
        | [] => none

/-- `re.FindStringSubmatch` for the anchored duration regex of
src/main.go:332: `some` of the capture groups on a match, `none` otherwise. -/
def isoMatch : List Char → Option IsoGroups
  | c :: s1 => if c = 'P' then isoAfterP s1 else none
  | [] => none

/-- Numeric value of a digit string. -/
def digitsVal (ds : List Char) : Nat :=
  ds.foldl (fun a c => a * 10 + (c.toNat - '0'.toNat)) 0

/-- An exact, unreduced fraction `num / den`: the value of one of Go's float
computations on the decimal numerals at hand (float arithmetic is exact on
them up to the float32 rounding noted in the header, which no claim touches).
`den` is always a positive power of ten here. -/
structure Frac where
  num : Nat
  den : Nat
deriving DecidableEq, Repr

/-- Exact addition of unreduced fractions. -/
def Frac.add (a b : Frac) : Frac := ⟨a.num * b.den + b.num * a.den, a.den * b.den⟩

/-- Exact scaling by a natural constant (Go's `f * 24 * 60 * 60` etc.). -/
def Frac.scale (a : Frac) (k : Nat) : Frac := ⟨a.num * k, a.den⟩

/-- `strconv.ParseFloat` on the strings a capture group can hold, as an exact
fraction: a digit run, optionally followed by `.` and a second digit run
(the wildcard slot of the seconds group makes non-`.` separators possible;
those fail, as in Go — Go additionally accepts exotic spellings such as
exponents or digit-group underscores through that slot, which still parse
without crashing there and are immaterial to every claim settled here). -/
def parseDecimal (xs : List Char) : Option Frac :=
  match takeDigits xs with
  | ([], _) => none
  | (d :: ds, []) => some ⟨digitsVal (d :: ds), 1⟩
  | (d :: ds, '.' :: frac) =>
    if frac ≠ [] ∧ frac.all isDigitChar then
      some ⟨digitsVal (d :: ds) * 10 ^ frac.length + digitsVal frac, 10 ^ frac.length⟩
    else none
  | (_, _) => none

/-- Contribution of one optional capture group: Go's `if matches[i] != ""`
guard makes an unmatched group contribute zero without a parse attempt. -/
def optVal : Option (List Char) → Option Frac
  | none => some ⟨0, 1⟩
  | some ds => parseDecimal ds

/-- The summation loop of `ParseISODuration` (src/main.go:338-377): years and
months are skipped; days, hours, minutes and seconds are parsed and scaled. -/
def groupsToSeconds (g : IsoGroups) : Option Frac := do
  let d ← optVal g.days
  let h ← optVal g.hours
  let mi ← optVal g.minutes
  let s ← optVal g.seconds
  pure ((((d.scale 86400).add (h.scale 3600)).add (mi.scale 60)).add s)

/-- Seconds to `time.Duration` nanoseconds: the composition of Go's
`FormatFloat`/`time.ParseDuration` round-trip on the exact decimal value,
whose sub-nanosecond part `time.ParseDuration` truncates. -/
def Frac.toNanos (a : Frac) : Int := (a.num * 1000000000) / a.den

instance : DecidableEq (Except String Int) := fun
  | .ok a, .ok b =>
    if h : a = b then isTrue (by rw [h]) else isFalse (by intro hc; cases hc; exact h rfl)
  | .error a, .error b =>
    if h : a = b then isTrue (by rw [h]) else isFalse (by intro hc; cases hc; exact h rfl)
  | .ok _, .error _ => isFalse (by intro hc; cases hc)
  | .error _, .ok _ => isFalse (by intro hc; cases hc)

/-- `ParseISODuration` (src/main.go:331-382): regex match, numeric conversion
of the groups, and the nanosecond duration of the summed seconds. -/
def ParseISODuration (s : String) : Except String Int :=
  match isoMatch s.data with
  | none => Except.error "input string is of incorrect format"
  | some g =>
    match groupsToSeconds g with
    | none => Except.error "invalid numeric group"
    | some q => Except.ok q.toNanos

example : ParseISODuration "PT0S" = Except.ok 0 := by decide
example : ParseISODuration "P1DT" = Except.ok 86400000000000 := by decide
example : ParseISODuration "PT1H30M" = Except.ok 5400000000000 := by decide
example : ParseISODuration "PT1.5S" = Except.ok 1500000000 := by decide
example : ParseISODuration "1DT0S" = Except.error "input string is of incorrect format" := by decide
example : ParseISODuration "P1Y1M1DT1H" = Except.ok 90000000000000 := by decide
example : ParseISODuration "PT50S" = Except.ok 50000000000 := by decide
example : ParseISODuration "PT1,5S" = Except.error "invalid numeric group" := by decide

/-- The `fractions` substitution table (src/main.go:61-77): the 15 vulgar
fraction glyphs and their ASCII spellings. -/
def fractions : Char → Option String
  | '¼' => some "1/4"
  | '½' => some "1/2"
  | '¾' => some "3/4"
  | '⅓' => some "1/3"
  | '⅔' => some "2/3"
  | '⅕' => some "1/5"
  | '⅖' => some "2/5"
  | '⅗' => some "3/5"
  | '⅘' => some "4/5"
  | '⅙' => some "1/6"
  | '⅚' => some "5/6"
  | '⅛' => some "1/8"
  | '⅜' => some "3/8"
  | '⅝' => some "5/8"
  | '⅞' => some "7/8"
  | _ => none

/-- `ConvertFractions` (src/main.go:79-91): the rune loop appending either the
table replacement or the rune itself to the output builder. -/
def ConvertFractions (input : String) : String :=
  input.data.foldl
    (fun out r =>
      match fractions r with
      | some replacement => out ++ replacement
      | none => out.push r)
    ""

/-- Per-character expansion, the claim-level reading of the loop body. -/
def fracExpand (c : Char) : List Char :=
  match fractions c with
  | some replacement => replacement.data
  | none => [c]

/-- A node of the parsed HTML document: an element with a tag, an attribute
list and child nodes, or a text node.  This is the tree the goquery calls of
src/main.go walk. -/
inductive HNode where
  | elem (tag : String) (attrs : List (String × String)) (children : List HNode)
  | text (s : String)

/-- First value bound to an attribute key, if any (`goquery.Attr`). -/
def HNode.attrOf (n : HNode) (key : String) : Option String :=
  match n with
  | .elem _ attrs _ => (attrs.find? (fun p => p.1 = key)).map (·.2)
  | .text _ => none

/-- `goquery.AttrOr` on a single node. -/
def HNode.attrOrOf (n : HNode) (key dflt : String) : String :=
  (n.attrOf key).getD dflt

/-- Tag of an element node. -/
def HNode.tagOf : HNode → Option String
  | .elem tag _ _ => some tag
  | .text _ => none

/-- Direct element children (`goquery.Children` yields element nodes only). -/
def HNode.childElems : HNode → List HNode
  | .elem _ _ cs => cs.filter (fun c => match c with | .elem _ _ _ => true | .text _ => false)
  | .text _ => []

mutual
/-- Proper descendants of a node in document (pre-)order. -/
def HNode.descendants : HNode → List HNode
  | .text _ => []
  | .elem _ _ cs => descendantsList cs

/-- A node list followed by the descendants of each node, in document order. -/
def descendantsList : List HNode → List HNode
  | [] => []
  | c :: cs => c :: (HNode.descendants c ++ descendantsList cs)
end

mutual
/-- Concatenated text content of a node (`goquery.Text` of one node). -/
def HNode.textContent : HNode → String
  | .text s => s
  | .elem _ _ cs => textContentList cs

/-- Concatenated text content of a node list. -/
def textContentList : List HNode → String
  | [] => ""
  | c :: cs => HNode.textContent c ++ textContentList cs
end

/-- Whether a node matches the CSS selector `elemName[itemprop="propName"]`
of `RecipeNode.ItemProp` (src/main.go:32-34); an empty `elemName` matches any
element.  Selectors match element nodes only. -/
def matchesItemProp (elemName propName : String) (n : HNode) : Bool :=
  match n with
  | .elem tag _ _ =>
    (elemName = "" || tag = elemName) && n.attrOf "itemprop" = some propName
  | .text _ => false

/-- `RecipeNode.ItemProp` (src/main.go:32-34): `Find` collects the matching
proper descendants of the receiver, in document order. -/
def ItemProp (s : HNode) (elemName propName : String) : List HNode :=
  s.descendants.filter (matchesItemProp elemName propName)

/-- `RecipeNode.ItemPropAttrOr` (src/main.go:36-38): `AttrOr` reads the
attribute of the first matched node, with the default on no match or a
missing attribute. -/
def ItemPropAttrOr (s : HNode) (elemName propName attr dflt : String) : String :=
  match (ItemProp s elemName propName).head? with
  | none => dflt
  | some n => n.attrOrOf attr dflt

/-- `RecipeNode.ItemPropElemText` (src/main.go:40-42): `Text` concatenates
the text content of every matched node. -/
def ItemPropElemText (s : HNode) (propName : String) : String :=
  textContentList (ItemProp s "" propName)

/-- `RecipeNode.ItemPropContentOr` (src/main.go:44-46). -/
def ItemPropContentOr (s : HNode) (propName dflt : String) : String :=
  ItemPropAttrOr s "meta" propName "content" dflt

/-- `RecipeNode.ItemPropContentList` (src/main.go:48-59): the `Each` loop
appending every non-empty `content` attribute. -/
def ItemPropContentList (s : HNode) (propName : String) : List String :=
  (ItemProp s "meta" propName).foldl
    (fun contents meta =>
      let content := meta.attrOrOf "content" ""
      if content ≠ "" then contents ++ [content] else contents)
    []

/-- The whitespace set of Go's `unicode.IsSpace`, used by `strings.TrimSpace`:
ASCII whitespace plus NEL, NBSP and the Unicode space separators. -/
def goIsSpace (c : Char) : Bool :=
  c = ' ' || c = '\t' || c = '\n' || c = '\x0b' || c = '\x0c' || c = '\r' ||
  c = '\x85' || c = '\xa0' || c = ' ' || (' ' ≤ c && c ≤ ' ') ||
  c = ' ' || c = ' ' || c = ' ' || c = ' ' || c = '　'

/-- `strings.TrimSpace`: drop leading and trailing whitespace runes. -/
def goTrimSpace (s : String) : String :=
  String.mk (((s.data.dropWhile goIsSpace).reverse.dropWhile goIsSpace).reverse)

/-- `strconv.Atoi`: an optional sign followed by at least one digit and
nothing else (Go also range-checks against `int64`, immaterial to the small
ratings here). -/
def goAtoi (s : String) : Option Int :=
  match s.data with
  | [] => none
  | c :: rest =>
    let signed : Int × List Char :=
      if c = '-' then (-1, rest) else if c = '+' then (1, rest) else (1, c :: rest)
    if signed.2 ≠ [] ∧ signed.2.all isDigitChar then
      some (signed.1 * (digitsVal signed.2 : Int))
    else none

/-- `RecipeNode.ItemPropChildrenText` (src/main.go:93-104): direct element
children of the matched container(s), each trimmed and fraction-normalized,
empty results skipped. -/
def ItemPropChildrenText (s : HNode) (propName : String) : List String :=
  ((ItemProp s "" propName).flatMap HNode.childElems).foldl
    (fun stringList par =>
      let partext := ConvertFractions (goTrimSpace par.textContent)
      if partext ≠ "" then stringList ++ [partext] else stringList)
    []

/-- `RecipeNode.ExtractRecipeCourses` (src/main.go:106-125): course values are
split between `span` text nodes and `meta` `content` attributes; empties are
skipped, document order is kept. -/
def ExtractRecipeCourses (s : HNode) : List String :=
  (ItemProp s "" "recipeCourse").foldl
    (fun courses elemNode =>
      if elemNode.tagOf = some "span" then
        let course := elemNode.textContent
        if course ≠ "" then courses ++ [course] else courses
      else if elemNode.tagOf = some "meta" then
        let course := elemNode.attrOrOf "content" ""
        if course ≠ "" then courses ++ [course] else courses
      else courses)
    []

/-- Whether a node matches the selector `img.recipe-photos`: an `img` element
whose whitespace-separated class list contains `recipe-photos`. -/
def matchesPhoto (n : HNode) : Bool :=
  match n with
  | .elem tag _ _ =>
    tag = "img" && ((n.attrOrOf "class" "").split goIsSpace).contains "recipe-photos"
  | .text _ => false

/-- `RecipeNode.ExtractRecipePhotos` (src/main.go:127-138): collect non-empty
`src` attributes of matching images. -/
def ExtractRecipePhotos (s : HNode) : List String :=
  (s.descendants.filter matchesPhoto).foldl
    (fun photos img =>
      let src := img.attrOrOf "src" ""
      if src ≠ "" then photos ++ [src] else photos)
    []

/-- `RecipeNutrition` (src/main.go:196-206). -/
structure RecipeNutrition where
  Serving : String
  Calories : String
  TotalFat : String
  SaturatedFat : String
  Sodium : String
  TotalCarbohydrate : String
  DietaryFiber : String
  Sugars : String
  Protein : String
deriving DecidableEq, Repr

/-- `RecipeMetadata` (src/main.go:208-219); durations are `time.Duration`
nanosecond counts. -/
structure RecipeMetadata where
  UUID : String
  Favorited : Bool
  Rating : Int
  Source : String
  CategoryList : List String
  CourseList : List String
  CollectionList : List String
  Yield : String
  CookTime : Int
  PrepTime : Int
deriving DecidableEq, Repr

/-- `Recipe` (src/main.go:221-229). -/
structure Recipe where
  Title : String
  Nutrition : RecipeNutrition
  Metadata : RecipeMetadata
  PhotoPaths : List String
  IngredientLines : List String
  InstructionLines : List String
  NotesLines : List String
deriving DecidableEq, Repr

/-- `RecipeNode.ExtractRecipeMetadata` (src/main.go:140-164).  Fields start
at Go's zero values; `Rating`, `PrepTime` and `CookTime` are assigned only
when their parse succeeds (`if err == nil`), so a failed parse leaves the
zero value.  The prep-time content is passed through `strings.TrimSpace`
before parsing; the cook-time content is not. -/
def ExtractRecipeMetadata (s : HNode) : RecipeMetadata where
  UUID := ItemPropContentOr s "recipeId" ""
  Favorited := ItemPropContentOr s "recipeIsFavourite" "False" = "True"
  Rating :=
    match goAtoi (ItemPropContentOr s "recipeRating" "0") with
    | some rating => rating
    | none => 0
  Source := ItemPropElemText s "recipeSource"
  CategoryList := ItemPropContentList s "recipeCategory"
  CollectionList := ItemPropContentList s "recipeCollection"
  CourseList := ExtractRecipeCourses s
  Yield := ItemPropElemText s "recipeYield"
  PrepTime :=
    match ParseISODuration (goTrimSpace (ItemPropContentOr s "prepTime" "PT50S")) with
    | Except.ok prepDuration => prepDuration
    | Except.error _ => 0
  CookTime :=
    match ParseISODuration (ItemPropContentOr s "cookTime" "PT0S") with
    | Except.ok cookDuration => cookDuration
    | Except.error _ => 0

/-- `RecipeNode.ExtractRecipeNutrition` (src/main.go:166-180). -/
def ExtractRecipeNutrition (s : HNode) : RecipeNutrition where
  Serving := ItemPropContentOr s "recipeNutServingSize" ""
  Calories := ItemPropContentOr s "recipeNutCalories" ""
  TotalFat := ItemPropContentOr s "recipeNutTotalFat" ""
  SaturatedFat := ItemPropContentOr s "recipeNutSaturatedFat" ""
  Sodium := ItemPropContentOr s "recipeNutSodium" ""
  TotalCarbohydrate := ItemPropContentOr s "recipeNutTotalCarbohydrate" ""
  DietaryFiber := ItemPropContentOr s "recipeNutDietaryFiber" ""
  Sugars := ItemPropContentOr s "recipeNutSugars" ""
  Protein := ItemPropContentOr s "recipeNutProtein" ""

/-- `RecipeNode.ExtractRecipe` (src/main.go:182-194).  The Go code leaves
`recipe.Nutrition` at its zero value (all empty strings). -/
def ExtractRecipe (s : HNode) : Recipe where
  Title := ItemPropElemText s "name"
  Nutrition := ⟨"", "", "", "", "", "", "", "", ""⟩
  Metadata := ExtractRecipeMetadata s
  PhotoPaths := ExtractRecipePhotos s
  IngredientLines := ItemPropChildrenText s "recipeIngredients"
  InstructionLines := ItemPropChildrenText s "recipeDirections"
  NotesLines := ItemPropChildrenText s "recipeNotes"

/-- The fractional part printed by Go `time.Duration.String`: the low `prec`
digits of `v`, trailing zeros stripped, preceded by a dot when nonempty. -/
def fmtFracStr (v prec : Nat) : String :=
  let raw := (toString (v % 10 ^ prec)).data
  let padded := List.replicate (prec - raw.length) '0' ++ raw
  let trimmed := (padded.reverse.dropWhile (fun c => c = '0')).reverse
  if trimmed = [] then "" else String.mk ('.' :: trimmed)

/-- Go `time.Duration.String`, the `%s` rendering of the durations at
src/main.go:253 and 256: `"72h3m0.5s"`-style units for a second or more,
`ns`/`µs`/`ms` below one second, `"0s"` for zero. -/
def formatGoDuration (d : Int) : String :=
  let u := d.natAbs
  let core :=
    if u < 1000000000 then
      if u = 0 then "0s"
      else if u < 1000 then toString u ++ "ns"
      else if u < 1000000 then toString (u / 1000) ++ fmtFracStr u 3 ++ "µs"
      else toString (u / 1000000) ++ fmtFracStr u 6 ++ "ms"
    else
      let sec := u / 1000000000
      let tail := toString (sec % 60) ++ fmtFracStr u 9 ++ "s"
      let mins := sec / 60
      if mins > 0 then
        let tail2 := toString (mins % 60) ++ "m" ++ tail
        let hours := mins / 60
        if hours > 0 then toString hours ++ "h" ++ tail2 else tail2
      else tail
  if d < 0 then "-" ++ core else core

example : formatGoDuration 90000000000000 = "25h0m0s" := by decide
example : formatGoDuration 1500000000 = "1.5s" := by decide
example : formatGoDuration 5400000000000 = "1h30m0s" := by decide
example : formatGoDuration 0 = "0s" := by decide
example : formatGoDuration 1500 = "1.5µs" := by decide

/-- `Recipe.FormatAsRecipeMD` (src/main.go:231-288): the fixed Markdown
layout, with each optional line guarded by its own emptiness test and every
block separator written unconditionally. -/
def FormatAsRecipeMD (r : Recipe) : String :=
  "# " ++ r.Title ++ "\n"
  ++ "\n"
  ++ (if r.Metadata.Rating ≠ 0 then
        "Rating: " ++ toString r.Metadata.Rating ++ "-star\n" else "")
  ++ (if r.Metadata.CollectionList.length > 0 then
        "Collections: " ++ String.intercalate ", " r.Metadata.CollectionList ++ "\n" else "")
  ++ (if r.Metadata.CourseList.length > 0 then
        "Course: " ++ String.intercalate ", " r.Metadata.CourseList ++ "\n" else "")
  ++ "\n"
  ++ (if r.Metadata.Source ≠ "" then "Source: " ++ r.Metadata.Source ++ "\n" else "")
  ++ "\n"
  ++ (if r.Metadata.CookTime > 0 then
        "Cook Time: " ++ formatGoDuration r.Metadata.CookTime ++ "\n" else "")
  ++ (if r.Metadata.PrepTime > 0 then
        "Prep Time: " ++ formatGoDuration r.Metadata.PrepTime ++ "\n" else "")
  ++ "\n"
  ++ (if r.Metadata.CategoryList.length > 0 then
        "*" ++ String.intercalate ", " r.Metadata.CategoryList ++ "*\n" else "")
  ++ "\n"
  ++ (if r.Metadata.Yield ≠ "" then "**" ++ r.Metadata.Yield ++ "**\n" else "")
  ++ "\n---\n\n"
  ++ String.join (r.IngredientLines.map (fun ingredient => "- " ++ ingredient ++ "\n"))
  ++ "\n---\n\n"
  ++ "### Instructions\n\n"
  ++ String.intercalate "\n" r.InstructionLines
  ++ (if r.NotesLines.length > 0 then
        "\n\n### Notes\n\n" ++ String.intercalate "\n" r.NotesLines else "")
  ++ "\n"

/-- Character-list expansion: each vulgar-fraction glyph becomes its ASCII
spelling, every other character passes through unchanged. -/
def expandAll : List Char → List Char
  | [] => []
  | c :: cs => fracExpand c ++ expandAll cs

theorem convertFractions_foldl (l : List Char) (acc : String) :
    (l.foldl
      (fun out r =>
        match fractions r with
        | some replacement => out ++ replacement
        | none => out.push r)
      acc).data = acc.data ++ expandAll l := by
  induction l generalizing acc with
  | nil => simp [expandAll]
  | cons c cs ih =>
    rw [List.foldl_cons, ih]
    cases h : fractions c with
    | none => simp [expandAll, fracExpand, h, String.data_push]
    | some rep => simp [expandAll, fracExpand, h, String.data_append]

/-- C5: `ConvertFractions` replaces each of the 15 vulgar-fraction glyphs by
its ASCII `a/b` spelling and passes every other character through unchanged,
with no spacing adjustment; in particular `"1½ cups"` becomes `"11/2 cups"`
(no inserted space) and `"no fractions"` is unchanged. -/
theorem c5_convertFractions_pointwise :
    (∀ s : String, (ConvertFractions s).data = expandAll s.data) ∧
    ConvertFractions "1½ cups" = "11/2 cups" ∧
    ConvertFractions "no fractions" = "no fractions" := by
  refine ⟨fun s => ?_, by decide, by decide⟩
  have h := convertFractions_foldl s.data ""
  simpa [ConvertFractions] using h

/-- C1 counterexample: on `"P1Y1M1DT1H"` the parser returns 90000 seconds
(the day contributes 86400s and the hour 3600s), not the 3600 seconds the
claim states. -/
theorem c1_counterexample :
    ParseISODuration "P1Y1M1DT1H" = Except.ok 90000000000000 ∧
    (Except.ok 90000000000000 : Except String Int) ≠ Except.ok 3600000000000 :=
  ⟨by decide, by decide⟩

/-- C1 amended: `ParseISODuration "P1Y1M1DT1H"` succeeds and returns 90000
seconds (1 day + 1 hour); only the year and month components are ignored —
the same value results with the year and month dropped or changed. -/
theorem c1_amended :
    ParseISODuration "P1Y1M1DT1H" = Except.ok 90000000000000 ∧
    ParseISODuration "P1DT1H" = Except.ok 90000000000000 ∧
    ParseISODuration "P7Y11M1DT1H" = Except.ok 90000000000000 :=
  ⟨by decide, by decide, by decide⟩

/-- C4: the five cited duration-parser behaviours, with durations as
`time.Duration` nanosecond counts (1.5s = 1500000000ns): `"PT0S"` is zero,
`"P1DT"` (nothing after the mandatory `T`) is accepted as one day,
`"PT1H30M"` is 5400s, `"PT1.5S"` is 1.5s, and `"1DT0S"` (missing the leading
`P`) fails. -/
theorem c4_duration_examples :
    ParseISODuration "PT0S" = Except.ok 0 ∧
    ParseISODuration "P1DT" = Except.ok 86400000000000 ∧
    ParseISODuration "PT1H30M" = Except.ok 5400000000000 ∧
    ParseISODuration "PT1.5S" = Except.ok 1500000000 ∧
    (∃ e, ParseISODuration "1DT0S" = Except.error e) :=
  ⟨by decide, by decide, by decide, by decide,
    ⟨"input string is of incorrect format", by decide⟩⟩

/-- A one-recipe fragment whose `recipeIsFavourite` meta node carries the
given content value. -/
def favFragment (v : String) : HNode :=
  .elem "div" [] [.elem "meta" [("itemprop", "recipeIsFavourite"), ("content", v)] []]

/-- C6: the built recipe is favorited exactly when the extracted
`recipeIsFavourite` content is the literal `"True"` (case-sensitively); in
particular content `"true"` or `"TRUE"` yields `false` and `"True"` yields
`true`. -/
theorem c6_favorited_iff :
    (∀ f : HNode,
      (ExtractRecipeMetadata f).Favorited = true ↔
        ItemPropContentOr f "recipeIsFavourite" "False" = "True") ∧
    (ExtractRecipeMetadata (favFragment "true")).Favorited = false ∧
    (ExtractRecipeMetadata (favFragment "TRUE")).Favorited = false ∧
    (ExtractRecipeMetadata (favFragment "True")).Favorited = true := by
  refine ⟨fun f => ?_, by decide, by decide, by decide⟩
  simp [ExtractRecipeMetadata]

/-- The raw content lookup behind `ItemPropContentOr`: `none` when the
property is absent, that is when no meta node matches or the first match
lacks the `content` attribute. -/
def metaContentOpt (s : HNode) (propName : String) : Option String :=
  ((ItemProp s "meta" propName).head?).bind (fun n => n.attrOf "content")

theorem itemPropContentOr_eq (s : HNode) (p dflt : String) :
    ItemPropContentOr s p dflt = (metaContentOpt s p).getD dflt := by
  unfold ItemPropContentOr ItemPropAttrOr metaContentOpt HNode.attrOrOf
  cases (ItemProp s "meta" p).head? <;> simp

/-- A one-recipe fragment whose `prepTime` meta node carries an unparseable
duration string. -/
def badPrepFragment : HNode :=
  .elem "div" [] [.elem "meta" [("itemprop", "prepTime"), ("content", "garbage")] []]

/-- A one-recipe fragment with no property nodes at all. -/
def emptyFragment : HNode := .elem "div" [] []

/-- C2 counterexample: with a present but unparseable `prepTime` content the
built prep time is the zero value 0s, not the claimed 50s (the `"PT50S"`
default only applies when the property is absent, and a failed parse skips
the assignment, leaving the zero-initialized field). -/
theorem c2_counterexample :
    (ExtractRecipeMetadata badPrepFragment).PrepTime = 0 ∧
    (0 : Int) ≠ 50000000000 :=
  ⟨by decide, by decide⟩

/-- C2 amended: prep time is 50s when the `prepTime` property is absent (the
default string `"PT50S"` is parsed), and 0s when the property is present but
its trimmed content is unparseable; cook time is 0s when the `cookTime`
property is absent or its content is unparseable. -/
theorem c2_amended (f : HNode) :
    (metaContentOpt f "prepTime" = none →
      (ExtractRecipeMetadata f).PrepTime = 50000000000) ∧
    (∀ s, metaContentOpt f "prepTime" = some s →
      (∀ v, ParseISODuration (goTrimSpace s) ≠ Except.ok v) →
      (ExtractRecipeMetadata f).PrepTime = 0) ∧
    (metaContentOpt f "cookTime" = none →
      (ExtractRecipeMetadata f).CookTime = 0) ∧
    (∀ s, metaContentOpt f "cookTime" = some s →
      (∀ v, ParseISODuration s ≠ Except.ok v) →
      (ExtractRecipeMetadata f).CookTime = 0) := by
  refine ⟨fun h => ?_, fun s h herr => ?_, fun h => ?_, fun s h herr => ?_⟩
  · simp only [ExtractRecipeMetadata]
    rw [itemPropContentOr_eq, h]
    decide
  · simp only [ExtractRecipeMetadata]
    rw [itemPropContentOr_eq, h]
    cases hp : ParseISODuration (goTrimSpace ((some s).getD "PT50S")) with
    | ok v => exact absurd (by simpa using hp) (herr v)
    | error e => simp [hp]
  · simp only [ExtractRecipeMetadata]
    rw [itemPropContentOr_eq, h]
    decide
  · simp only [ExtractRecipeMetadata]
    rw [itemPropContentOr_eq, h]
    cases hp : ParseISODuration ((some s).getD "PT0S") with
    | ok v => exact absurd (by simpa using hp) (herr v)
    | error e => simp [hp]

theorem c2_witness :
    (ExtractRecipeMetadata emptyFragment).PrepTime = 50000000000 ∧
    (ExtractRecipeMetadata emptyFragment).CookTime = 0 ∧
    (ExtractRecipeMetadata badPrepFragment).PrepTime = 0 :=
  ⟨(c2_amended emptyFragment).1 rfl,
   (c2_amended emptyFragment).2.2.1 rfl,
   (c2_amended badPrepFragment).2.1 "garbage" rfl
     (fun _ h => Except.noConfusion h)⟩

/-- The per-node course value, worded as the spec does: inline text (`span`)
containers contribute their text, metadata (`meta`) containers contribute
their `content` attribute, empty values are skipped, other shapes contribute
nothing. -/
def courseValue (n : HNode) : Option String :=
  if n.tagOf = some "span" then
    if n.textContent ≠ "" then some n.textContent else none
  else if n.tagOf = some "meta" then
    if n.attrOrOf "content" "" ≠ "" then some (n.attrOrOf "content" "") else none
  else none

theorem extractCourses_foldl (l : List HNode) (acc : List String) :
    l.foldl
      (fun courses elemNode =>
        if elemNode.tagOf = some "span" then
          let course := elemNode.textContent
          if course ≠ "" then courses ++ [course] else courses
        else if elemNode.tagOf = some "meta" then
          let course := elemNode.attrOrOf "content" ""
          if course ≠ "" then courses ++ [course] else courses
        else courses)
      acc = acc ++ l.filterMap courseValue := by
  induction l generalizing acc with
  | nil => simp
  | cons c cs ih =>
    rw [List.foldl_cons, ih, List.filterMap_cons]
    simp only [courseValue]
    split_ifs <;> simp

/-- A one-recipe fragment carrying a `meta`-shaped course `"Dinner"` before a
`span`-shaped course `"Quick"`. -/
def coursesFragment : HNode :=
  .elem "div" []
    [.elem "meta" [("itemprop", "recipeCourse"), ("content", "Dinner")] [],
     .elem "span" [("itemprop", "recipeCourse")] [.text "Quick"]]

/-- C7: `ExtractRecipeCourses` returns, in document encounter order, the text
of `span`-shaped course nodes and the `content` attribute of `meta`-shaped
ones, skipping empties; in particular the order [meta:"Dinner", span:"Quick"]
yields `["Dinner", "Quick"]`. -/
theorem c7_courses_order :
    (∀ f : HNode,
      ExtractRecipeCourses f = (ItemProp f "" "recipeCourse").filterMap courseValue) ∧
    ExtractRecipeCourses coursesFragment = ["Dinner", "Quick"] := by
  refine ⟨fun f => ?_, by decide⟩
  unfold ExtractRecipeCourses
  simpa using extractCourses_foldl (ItemProp f "" "recipeCourse") []

/-- C9: list results are a present (possibly empty) list, never an absent
value: on a fragment with zero matching nodes each list extractor returns
the empty list (the Go code allocates `make([]string, 0)`, never `nil`; in
this embedding list results are total by construction, and this theorem pins
the zero-match case to the empty list). -/
theorem c9_lists_empty_not_absent (f : HNode) (p : String) :
    (ItemProp f "meta" p = [] → ItemPropContentList f p = []) ∧
    (ItemProp f "" p = [] → ItemPropChildrenText f p = []) ∧
    (ItemProp f "" "recipeCourse" = [] → ExtractRecipeCourses f = []) ∧
    (f.descendants.filter matchesPhoto = [] → ExtractRecipePhotos f = []) := by
  refine ⟨fun h => ?_, fun h => ?_, fun h => ?_, fun h => ?_⟩
  · simp [ItemPropContentList, h]
  · simp [ItemPropChildrenText, h]
  · simp [ExtractRecipeCourses, h]
  · simp [ExtractRecipePhotos, h]

theorem c9_witness :
    ItemPropContentList emptyFragment "recipeCategory" = [] ∧
    ItemPropChildrenText emptyFragment "recipeIngredients" = [] ∧
    ExtractRecipeCourses emptyFragment = [] ∧
    ExtractRecipePhotos emptyFragment = [] :=
  ⟨(c9_lists_empty_not_absent emptyFragment "recipeCategory").1 rfl,
   (c9_lists_empty_not_absent emptyFragment "recipeIngredients").2.1 rfl,
   (c9_lists_empty_not_absent emptyFragment "recipeIngredients").2.2.1 rfl,
   (c9_lists_empty_not_absent emptyFragment "recipeIngredients").2.2.2 rfl⟩

/-- C8: `ParseISODuration` is a total function into success-or-error: a
failed regex match yields the format error, a matched-but-unparseable numeric
group yields the numeric error (Go's non-nil `strconv` error returned rather
than a panic), and every input lands in exactly one of `ok` or `error`. -/
theorem c8_total_error_handling (s : String) :
    (isoMatch s.data = none →
      ParseISODuration s = Except.error "input string is of incorrect format") ∧
    (∀ g, isoMatch s.data = some g → groupsToSeconds g = none →
      ParseISODuration s = Except.error "invalid numeric group") ∧
    ((∃ v, ParseISODuration s = Except.ok v) ∨
      (∃ e, ParseISODuration s = Except.error e)) := by
  refine ⟨fun h => ?_, fun g hg hng => ?_, ?_⟩
  · simp [ParseISODuration, h]
  · simp [ParseISODuration, hg, hng]
  · cases hm : isoMatch s.data with
    | none =>
      exact Or.inr ⟨"input string is of incorrect format", by simp [ParseISODuration, hm]⟩
    | some g =>
      cases hg : groupsToSeconds g with
      | none => exact Or.inr ⟨"invalid numeric group", by simp [ParseISODuration, hm, hg]⟩
      | some q => exact Or.inl ⟨q.toNanos, by simp [ParseISODuration, hm, hg]⟩

theorem c8_witness :
    ParseISODuration "hello" = Except.error "input string is of incorrect format" ∧
    ParseISODuration "PT1,5S" = Except.error "invalid numeric group" :=
  ⟨(c8_total_error_handling "hello").1 rfl,
   (c8_total_error_handling "PT1,5S").2.1
     ⟨none, none, none, none, none, some ['1', ',', '5']⟩ rfl rfl⟩

/-- C3: for a recipe with zero rating and empty collection and course lists
the rendered Markdown is the `# {title}` line followed directly by the later
blocks: the rating/collections/course lines are skipped entirely while every
block's unconditional blank-line separator is still written (so the skipped
block leaves consecutive blank lines), and the Cook Time and Prep Time lines
appear exactly when the respective duration is strictly positive. -/
theorem c3_renderer_skips (r : Recipe)
    (h1 : r.Metadata.Rating = 0)
    (h2 : r.Metadata.CollectionList = [])
    (h3 : r.Metadata.CourseList = []) :
    FormatAsRecipeMD r =
      "# " ++ r.Title ++ "\n" ++ "\n" ++ "\n"
      ++ (if r.Metadata.Source ≠ "" then "Source: " ++ r.Metadata.Source ++ "\n" else "")
      ++ "\n"
      ++ (if r.Metadata.CookTime > 0 then
            "Cook Time: " ++ formatGoDuration r.Metadata.CookTime ++ "\n" else "")
      ++ (if r.Metadata.PrepTime > 0 then
            "Prep Time: " ++ formatGoDuration r.Metadata.PrepTime ++ "\n" else "")
      ++ "\n"
      ++ (if r.Metadata.CategoryList.length > 0 then
            "*" ++ String.intercalate ", " r.Metadata.CategoryList ++ "*\n" else "")
      ++ "\n"
      ++ (if r.Metadata.Yield ≠ "" then "**" ++ r.Metadata.Yield ++ "**\n" else "")
      ++ "\n---\n\n"
      ++ String.join (r.IngredientLines.map (fun ingredient => "- " ++ ingredient ++ "\n"))
      ++ "\n---\n\n"
      ++ "### Instructions\n\n"
      ++ String.intercalate "\n" r.InstructionLines
      ++ (if r.NotesLines.length > 0 then
            "\n\n### Notes\n\n" ++ String.intercalate "\n" r.NotesLines else "")
      ++ "\n" := by
  unfold FormatAsRecipeMD
  rw [h1, h2, h3]
  simp

/-- A concrete recipe with zero rating, no collections and no courses. -/
def sampleRecipe : Recipe where
  Title := "Soup"
  Nutrition := ⟨"", "", "", "", "", "", "", "", ""⟩
  Metadata :=
    { UUID := "abc-123", Favorited := false, Rating := 0, Source := ""
      CategoryList := [], CourseList := [], CollectionList := []
      Yield := "4 servings", CookTime := 5400000000000, PrepTime := 50000000000 }
  PhotoPaths := []
  IngredientLines := ["11/2 cups broth"]
  InstructionLines := ["Boil."]
  NotesLines := []

theorem c3_witness :
    FormatAsRecipeMD sampleRecipe =
      "# Soup\n\n\n\nCook Time: 1h30m0s\nPrep Time: 50s\n\n\n**4 servings**\n\n---\n\n- 11/2 cups broth\n\n---\n\n### Instructions\n\nBoil.\n" := by
  rw [c3_renderer_skips sampleRecipe rfl rfl rfl]
  decide

theorem takeDigits_append_eq (xs : List Char) :
    (takeDigits xs).1 ++ (takeDigits xs).2 = xs := by
  induction xs with
  | nil => rfl
  | cons c cs ih =>
    unfold takeDigits
    cases hc : isDigitChar c
    · simp [hc]
    · simp only [hc, if_true, List.cons_append]
      rw [ih]

theorem numGroup_none_eq {l : Char} {xs r : List Char}
    (h : numGroup l xs = (none, r)) : r = xs := by
  unfold numGroup at h
  rcases htd : takeDigits xs with ⟨run, rest⟩
  rw [htd] at h
  cases run with
  | nil => injection h with _ h2; exact h2.symm
  | cons d ds =>
    cases rest with
    | nil => injection h with _ h2; exact h2.symm
    | cons c rest2 =>
      dsimp only at h
      split_ifs at h with hc
      · injection h with h1 _; exact Option.noConfusion h1
      · injection h with _ h2; exact h2.symm

theorem numGroup_some_eq {l : Char} {xs r g : List Char}
    (h : numGroup l xs = (some g, r)) : xs = g ++ l :: r := by
  have hx : (takeDigits xs).1 ++ (takeDigits xs).2 = xs := takeDigits_append_eq xs
  unfold numGroup at h
  rcases htd : takeDigits xs with ⟨run, rest⟩
  rw [htd] at h
  rw [htd] at hx
  cases run with
  | nil => injection h with h1 _; exact Option.noConfusion h1
  | cons d ds =>
    cases rest with
    | nil => injection h with h1 _; exact Option.noConfusion h1
    | cons c rest2 =>
      dsimp only at h
      dsimp only at hx
      split_ifs at h with hc
      · injection h with h1 h2
        injection h1 with h1
        subst hc
        rw [← hx, h1, h2]
      · injection h with h1 _; exact Option.noConfusion h1

theorem numGroup_rest (l : Char) (xs : List Char) :
    ∃ pre, xs = pre ++ (numGroup l xs).2 := by
  rcases hng : numGroup l xs with ⟨og, r⟩
  cases og with
  | none =>
    exact ⟨[], by simpa using (numGroup_none_eq hng).symm⟩
  | some g =>
    refine ⟨g ++ [l], ?_⟩
    rw [numGroup_some_eq hng]
    simp

theorem secInner_some {d : List Char} {c : Char} {rest g r : List Char}
    (h : secInner d c rest = some (g, r)) : ∃ pre, rest = pre ++ 'S' :: r := by
  have hx : (takeDigits rest).1 ++ (takeDigits rest).2 = rest := takeDigits_append_eq rest
  unfold secInner at h
  split_ifs at h with hc
  · rcases htd : takeDigits rest with ⟨run2, rest3⟩
    rw [htd] at h
    rw [htd] at hx
    cases run2 with
    | nil => exact Option.noConfusion h
    | cons e es =>
      cases rest3 with
      | nil => exact Option.noConfusion h
      | cons c2 rest4 =>
        dsimp only at h
        dsimp only at hx
        split_ifs at h with hc2
        injection h with h1
        injection h1 with hg hr
        refine ⟨e :: es, ?_⟩
        rw [← hx, hc2, hr]

theorem secGroup_some {xs g r : List Char}
    (h : secGroup xs = (some g, r)) : ∃ pre, xs = pre ++ 'S' :: r := by
  have hx : (takeDigits xs).1 ++ (takeDigits xs).2 = xs := takeDigits_append_eq xs
  unfold secGroup at h
  rcases htd : takeDigits xs with ⟨run, rest⟩
  rw [htd] at h
  rw [htd] at hx
  cases run with
  | nil => injection h with h1 _; exact Option.noConfusion h1
  | cons dd ds =>
    cases rest with
    | nil => injection h with h1 _; exact Option.noConfusion h1
    | cons c rest2 =>
      dsimp only at h
      dsimp only at hx
      cases hin : secInner (dd :: ds) c rest2 with
      | some pr =>
        rw [hin] at h
        rcases pr with ⟨g2, r2⟩
        injection h with h1 h2
        injection h1 with hg
        dsimp only at h2
        obtain ⟨pre, hrest⟩ := secInner_some hin
        refine ⟨(dd :: ds) ++ c :: pre, ?_⟩
        rw [← hx, hrest, h2]
        simp
      | none =>
        rw [hin] at h
        split_ifs at h with hc
        · injection h with h1 h2
          refine ⟨dd :: ds, ?_⟩
          rw [← hx, hc, h2]
        · injection h with h1 _; exact Option.noConfusion h1

theorem secGroup_none {xs r : List Char} (h : secGroup xs = (none, r)) : r = xs := by
  unfold secGroup at h
  rcases htd : takeDigits xs with ⟨run, rest⟩
  rw [htd] at h
  cases run with
  | nil => injection h with _ h2; exact h2.symm
  | cons dd ds =>
    cases rest with
    | nil => injection h with _ h2; exact h2.symm
    | cons c rest2 =>
      dsimp only at h
      cases hin : secInner (dd :: ds) c rest2 with
      | some pr =>
        rw [hin] at h
        injection h with h1 _
        exact Option.noConfusion h1
      | none =>
        rw [hin] at h
        split_ifs at h with hc
        · injection h with h1 _; exact Option.noConfusion h1
        · injection h with _ h2; exact h2.symm

theorem isoTime_shape {gy gmo gd : Option (List Char)} {s5 : List Char} {g : IsoGroups}
    (h : isoTime gy gmo gd s5 = some g) :
    s5 = [] ∨ ∃ pre c, (c = 'H' ∨ c = 'M' ∨ c = 'S') ∧ s5 = pre ++ [c] := by
  unfold isoTime at h
  rcases hH : numGroup 'H' s5 with ⟨gh, s6⟩
  rw [hH] at h
  dsimp only at h
  rcases hM : numGroup 'M' s6 with ⟨gmi, s7⟩
  rw [hM] at h
  dsimp only at h
  rcases hS : secGroup s7 with ⟨gs, s8⟩
  rw [hS] at h
  dsimp only at h
  split_ifs at h with h8
  cases gs with
  | some gsec =>
    obtain ⟨pre, h7⟩ := secGroup_some hS
    rw [h8] at h7
    obtain ⟨preM, hM6⟩ := numGroup_rest 'M' s6
    rw [hM] at hM6
    dsimp only at hM6
    obtain ⟨preH, hH5⟩ := numGroup_rest 'H' s5
    rw [hH] at hH5
    dsimp only at hH5
    right
    refine ⟨preH ++ preM ++ pre, 'S', Or.inr (Or.inr rfl), ?_⟩
    rw [hH5, hM6, h7]
    simp
  | none =>
    have h78 : s8 = s7 := secGroup_none hS
    have h7 : s7 = [] := by rw [← h78, h8]
    cases gmi with
    | some gm =>
      have h6 : s6 = gm ++ 'M' :: s7 := numGroup_some_eq hM
      rw [h7] at h6
      obtain ⟨preH, hH5⟩ := numGroup_rest 'H' s5
      rw [hH] at hH5
      dsimp only at hH5
      right
      refine ⟨preH ++ gm, 'M', Or.inr (Or.inl rfl), ?_⟩
      rw [hH5, h6]
      simp
    | none =>
      have h67 : s7 = s6 := numGroup_none_eq hM
      have h6 : s6 = [] := by rw [← h67, h7]
      cases gh with
      | some ghl =>
        have h5 : s5 = ghl ++ 'H' :: s6 := numGroup_some_eq hH
        rw [h6] at h5
        right
        exact ⟨ghl, 'H', Or.inl rfl, h5⟩
      | none =>
        have h56 : s6 = s5 := numGroup_none_eq hH
        left
        rw [← h56, h6]

theorem isoAfterP_shape {s1 : List Char} {g : IsoGroups}
    (h : isoAfterP s1 = some g) :
    ∃ pre s5 gy gmo gd, s1 = pre ++ 'T' :: s5 ∧ isoTime gy gmo gd s5 = some g := by
  unfold isoAfterP at h
  rcases hY : numGroup 'Y' s1 with ⟨gy, s2⟩
  rw [hY] at h
  dsimp only at h
  rcases hMo : numGroup 'M' s2 with ⟨gmo, s3⟩
  rw [hMo] at h
  dsimp only at h
  rcases hD : numGroup 'D' s3 with ⟨gd, s4⟩
  rw [hD] at h
  dsimp only at h
  obtain ⟨q1, h1⟩ := numGroup_rest 'Y' s1
  rw [hY] at h1
  dsimp only at h1
  obtain ⟨q2, h2⟩ := numGroup_rest 'M' s2
  rw [hMo] at h2
  dsimp only at h2
  obtain ⟨q3, h3⟩ := numGroup_rest 'D' s3
  rw [hD] at h3
  dsimp only at h3
  cases s4 with
  | nil => exact Option.noConfusion h
  | cons c4 s5 =>
    dsimp only at h
    split_ifs at h with hc
    subst hc
    refine ⟨q1 ++ q2 ++ q3, s5, gy, gmo, gd, ?_, h⟩
    rw [h1, h2, h3]
    simp

theorem isoMatch_shape {s : List Char} {g : IsoGroups} (h : isoMatch s = some g) :
    (∃ t, s = 'P' :: t) ∧
      ∃ pre c, (c = 'T' ∨ c = 'H' ∨ c = 'M' ∨ c = 'S') ∧ s = pre ++ [c] := by
  cases s with
  | nil => exact Option.noConfusion h
  | cons c0 s1 =>
    unfold isoMatch at h
    dsimp only at h
    split_ifs at h with hc
    subst hc
    refine ⟨⟨s1, rfl⟩, ?_⟩
    obtain ⟨pre, s5, gy, gmo, gd, h1, hTime⟩ := isoAfterP_shape h
    rcases isoTime_shape hTime with h5 | ⟨pre2, c, hcs, h5⟩
    · subst h5
      refine ⟨'P' :: pre, 'T', Or.inl rfl, ?_⟩
      rw [h1]
      simp
    · refine ⟨'P' :: pre ++ 'T' :: pre2, c, Or.inr hcs, ?_⟩
      rw [h1, h5]
      simp

theorem goIsSpace_ne {c : Char} (h : goIsSpace c = true) :
    c ≠ 'P' ∧ c ≠ 'T' ∧ c ≠ 'H' ∧ c ≠ 'M' ∧ c ≠ 'S' := by
  refine ⟨?_, ?_, ?_, ?_, ?_⟩ <;> intro heq <;> subst heq <;> revert h <;> decide

theorem dropWhile_append_all {l : List Char} (hl : ∀ c ∈ l, goIsSpace c = true)
    (t : List Char) : (l ++ t).dropWhile goIsSpace = t.dropWhile goIsSpace := by
  induction l with
  | nil => rfl
  | cons c cs ih =>
    have hc : goIsSpace c = true := hl c (List.mem_cons_self c cs)
    rw [List.cons_append, List.dropWhile_cons, hc]
    simp only [if_true]
    exact ih (fun x hx => hl x (List.mem_cons_of_mem c hx))

theorem last_eq_of_concat_eq {a b : List Char} {x y : Char}
    (h : a ++ [x] = b ++ [y]) : x = y := by
  have h2 := congrArg List.reverse h
  simp only [List.reverse_append, List.reverse_cons, List.reverse_nil, List.nil_append,
    List.cons_append, List.cons.injEq] at h2
  exact h2.1

theorem trim_pad_eq {d p1 p2 : List Char}
    (h1 : ∀ c ∈ p1, goIsSpace c = true) (h2 : ∀ c ∈ p2, goIsSpace c = true)
    {hd0 : Char} {dt : List Char} (hshape : d = hd0 :: dt) (hhd : goIsSpace hd0 = false)
    {lc : Char} {dp : List Char} (hlast : d = dp ++ [lc]) (hlc : goIsSpace lc = false) :
    goTrimSpace (String.mk (p1 ++ d ++ p2)) = String.mk d := by
  have step1 : (p1 ++ d ++ p2).dropWhile goIsSpace = d ++ p2 := by
    rw [List.append_assoc, dropWhile_append_all h1]
    rw [hshape, List.cons_append, List.dropWhile_cons, hhd]
    simp
  have step2 : ((d ++ p2).reverse).dropWhile goIsSpace = d.reverse := by
    rw [List.reverse_append, dropWhile_append_all (fun c hc => h2 c (List.mem_reverse.mp hc))]
    rw [hlast, List.reverse_append]
    simp only [List.reverse_cons, List.reverse_nil, List.nil_append, List.cons_append]
    rw [List.dropWhile_cons, hlc]
    simp
  have key : ((((p1 ++ d ++ p2).dropWhile goIsSpace).reverse.dropWhile goIsSpace).reverse) = d := by
    rw [step1, step2, List.reverse_reverse]
  calc goTrimSpace (String.mk (p1 ++ d ++ p2))
      = String.mk ((((p1 ++ d ++ p2).dropWhile goIsSpace).reverse.dropWhile goIsSpace).reverse) :=
        rfl
    _ = String.mk d := by rw [key]

theorem exists_concat_of_ne_nil {l : List Char} (h : l ≠ []) : ∃ q c, l = q ++ [c] := by
  cases hq : l.reverse with
  | nil => exact absurd (by simpa using congrArg List.reverse hq) h
  | cons c q => exact ⟨q.reverse, c, by simpa using congrArg List.reverse hq⟩

/-- C10: the model builder trims whitespace around the `prepTime` content but
not around the `cookTime` content.  For any string `d` the parser accepts and
any whitespace padding that is non-empty on at least one side, the padded
string fails the anchored regex (a match starts with `P` and ends with a unit
letter, never with whitespace), so as cook-time content it leaves the cook
time at 0; as prep-time content it is trimmed back to `d` and parses to `d`'s
value. -/
theorem c10_trim_asymmetry (f : HNode) (d p1 p2 : List Char) (v : Int)
    (hws1 : ∀ c ∈ p1, goIsSpace c = true) (hws2 : ∀ c ∈ p2, goIsSpace c = true)
    (hne : p1 ≠ [] ∨ p2 ≠ [])
    (hgood : ParseISODuration (String.mk d) = Except.ok v)
    (hcook : metaContentOpt f "cookTime" = some (String.mk (p1 ++ d ++ p2)))
    (hprep : metaContentOpt f "prepTime" = some (String.mk (p1 ++ d ++ p2))) :
    (ExtractRecipeMetadata f).CookTime = 0 ∧
    (ExtractRecipeMetadata f).PrepTime = v := by
  have hm : ∃ g, isoMatch d = some g := by
    unfold ParseISODuration at hgood
    cases hmm : isoMatch (String.mk d).data with
    | none => rw [hmm] at hgood; exact Except.noConfusion hgood
    | some g => exact ⟨g, rfl⟩
  obtain ⟨g, hg⟩ := hm
  obtain ⟨⟨t, hhead⟩, ⟨pre, lc, hlcset, hlast⟩⟩ := isoMatch_shape hg
  have hlcws : goIsSpace lc = false := by
    rcases hlcset with rfl | rfl | rfl | rfl <;> decide
  have hnomatch : isoMatch (p1 ++ d ++ p2) = none := by
    cases hmm : isoMatch (p1 ++ d ++ p2) with
    | none => rfl
    | some g2 =>
      exfalso
      obtain ⟨⟨t2, hhead2⟩, ⟨pre2, lc2, hlcset2, hlast2⟩⟩ := isoMatch_shape hmm
      cases p1 with
      | cons c1 p1t =>
        simp only [List.cons_append, List.cons.injEq] at hhead2
        exact (goIsSpace_ne (hws1 c1 (List.mem_cons_self c1 p1t))).1 hhead2.1
      | nil =>
        have hp2 : p2 ≠ [] := by
          rcases hne with hcon | hp2
          · exact absurd rfl hcon
          · exact hp2
        obtain ⟨q, c2, hq⟩ := exists_concat_of_ne_nil hp2
        have hc2ws : goIsSpace c2 = true := hws2 c2 (by rw [hq]; simp)
        rw [hq] at hlast2
        simp only [List.nil_append, ← List.append_assoc] at hlast2
        have hcc : c2 = lc2 := last_eq_of_concat_eq hlast2
        have hlc2ws : goIsSpace lc2 = true := hcc ▸ hc2ws
        rcases hlcset2 with rfl | rfl | rfl | rfl <;> exact absurd hlc2ws (by decide)
  have hperr : ParseISODuration (String.mk (p1 ++ d ++ p2)) =
      Except.error "input string is of incorrect format" := by
    unfold ParseISODuration
    rw [show (String.mk (p1 ++ d ++ p2)).data = p1 ++ d ++ p2 from rfl, hnomatch]
  constructor
  · simp only [ExtractRecipeMetadata]
    rw [itemPropContentOr_eq, hcook]
    simp only [Option.getD_some]
    rw [hperr]
  · simp only [ExtractRecipeMetadata]
    rw [itemPropContentOr_eq, hprep]
    simp only [Option.getD_some]
    have htrim : goTrimSpace (String.mk (p1 ++ d ++ p2)) = String.mk d :=
      trim_pad_eq hws1 hws2 hhead (by decide) hlast hlcws
    rw [htrim]
    have hgood2 : ParseISODuration (String.mk d) = Except.ok v := hgood
    rw [hgood2]

/-- A one-recipe fragment whose `cookTime` and `prepTime` meta nodes both
carry the padded content `" PT1H "`. -/
def paddedFragment : HNode :=
  .elem "div" []
    [.elem "meta" [("itemprop", "cookTime"), ("content", " PT1H ")] [],
     .elem "meta" [("itemprop", "prepTime"), ("content", " PT1H ")] []]

theorem c10_witness :
    (ExtractRecipeMetadata paddedFragment).CookTime = 0 ∧
    (ExtractRecipeMetadata paddedFragment).PrepTime = 3600000000000 :=
  c10_trim_asymmetry paddedFragment "PT1H".data [' '] [' '] 3600000000000
    (by decide) (by decide) (Or.inl (by decide)) (by decide) rfl rfl
